import Mathlib

/-!
Verification of the pineos referral-system backend: a shallow embedding of
the financial ledger service (`backend/ledger_service.py`), the request
validation schemas (`backend/schemas.py`, `backend/rule_api.py`) and the
rule engine (`backend/rule_engine.py`), together with theorems settling the
specification claims about balances, idempotency, reversals, validation
boundaries and condition evaluation.

Modelling conventions:
* JSON-like values (event payloads, `extra_data`) are the inductive `JValue`,
  with `null` doubling as Python `None` (Python itself conflates the two
  when JSON is parsed).
* SHA-256 request hashing (`_compute_request_hash`) and UUIDv5 key
  derivation are modelled as injective functions: the digest is represented
  by its preimage.  Nothing in the source inspects digests except for
  equality, so this is faithful up to hash collisions.
* The database is explicit state (`LedgerState`); SQLAlchemy row mutations
  become functional updates; a raised `HTTPException` becomes an
  `Except.error` (the enclosing transaction rolls back, so an error leaves
  the state unchanged by construction).
* `uuid.uuid4` server-side ids become a fresh-id counter `next_id`.
* Wall-clock timestamps (`datetime.utcnow().isoformat()`) are passed in as
  an explicit `now : String` parameter where they are observable (they are
  observable: the rule engine stores the timestamp inside the hashed
  credit-request payload).
-/

/-- JSON-like values: the payloads the backend passes around
(event data, rule condition values, `extra_data` bags).
`null` models both JSON `null` and Python `None`. -/
inductive JValue where
  | null
  | bool (b : Bool)
  | num (n : Int)
  | str (s : String)
  | arr (xs : List JValue)
  | obj (fields : List (String × JValue))

mutual

/-- Structural (Lean-level) equality test on `JValue`, used only to build
the `DecidableEq` instance.  Python's `==` is the separate `pyEq` below. -/
def jeqv : JValue → JValue → Bool
  | .null, .null => true
  | .bool a, .bool b => a == b
  | .num a, .num b => a == b
  | .str a, .str b => a == b
  | .arr a, .arr b => jeqvList a b
  | .obj a, .obj b => jeqvObj a b
  | _, _ => false

/-- Structural equality on lists of `JValue`. -/
def jeqvList : List JValue → List JValue → Bool
  | [], [] => true
  | x :: xs, y :: ys => jeqv x y && jeqvList xs ys
  | _, _ => false

/-- Structural equality on association lists of `JValue`. -/
def jeqvObj : List (String × JValue) → List (String × JValue) → Bool
  | [], [] => true
  | (k, v) :: xs, (k', v') :: ys => k == k' && jeqv v v' && jeqvObj xs ys
  | _, _ => false

end

mutual

theorem jeqv_refl : ∀ a : JValue, jeqv a a = true
  | .null => rfl
  | .bool b => by simp [jeqv]
  | .num n => by simp [jeqv]
  | .str s => by simp [jeqv]
  | .arr xs => by simp [jeqv, jeqvList_refl xs]
  | .obj fs => by simp [jeqv, jeqvObj_refl fs]

theorem jeqvList_refl : ∀ xs : List JValue, jeqvList xs xs = true
  | [] => rfl
  | x :: xs => by simp [jeqvList, jeqv_refl x, jeqvList_refl xs]

theorem jeqvObj_refl : ∀ xs : List (String × JValue), jeqvObj xs xs = true
  | [] => rfl
  | (k, v) :: xs => by simp [jeqvObj, jeqv_refl v, jeqvObj_refl xs]

end

mutual

theorem jeqv_eq : ∀ a b : JValue, jeqv a b = true → a = b
  | .null, .null, _ => rfl
  | .bool a, .bool b, h => by have := (by simpa [jeqv] using h : a = b); rw [this]
  | .num a, .num b, h => by have := (by simpa [jeqv] using h : a = b); rw [this]
  | .str a, .str b, h => by have := (by simpa [jeqv] using h : a = b); rw [this]
  | .arr a, .arr b, h => by rw [jeqvList_eq a b (by simpa [jeqv] using h)]
  | .obj a, .obj b, h => by rw [jeqvObj_eq a b (by simpa [jeqv] using h)]
  | .null, .bool _, h => by simp [jeqv] at h
  | .null, .num _, h => by simp [jeqv] at h
  | .null, .str _, h => by simp [jeqv] at h
  | .null, .arr _, h => by simp [jeqv] at h
  | .null, .obj _, h => by simp [jeqv] at h
  | .bool _, .null, h => by simp [jeqv] at h
  | .bool _, .num _, h => by simp [jeqv] at h
  | .bool _, .str _, h => by simp [jeqv] at h
  | .bool _, .arr _, h => by simp [jeqv] at h
  | .bool _, .obj _, h => by simp [jeqv] at h
  | .num _, .null, h => by simp [jeqv] at h
  | .num _, .bool _, h => by simp [jeqv] at h
  | .num _, .str _, h => by simp [jeqv] at h
  | .num _, .arr _, h => by simp [jeqv] at h
  | .num _, .obj _, h => by simp [jeqv] at h
  | .str _, .null, h => by simp [jeqv] at h
  | .str _, .bool _, h => by simp [jeqv] at h
  | .str _, .num _, h => by simp [jeqv] at h
  | .str _, .arr _, h => by simp [jeqv] at h
  | .str _, .obj _, h => by simp [jeqv] at h
  | .arr _, .null, h => by simp [jeqv] at h
  | .arr _, .bool _, h => by simp [jeqv] at h
  | .arr _, .num _, h => by simp [jeqv] at h
  | .arr _, .str _, h => by simp [jeqv] at h
  | .arr _, .obj _, h => by simp [jeqv] at h
  | .obj _, .null, h => by simp [jeqv] at h
  | .obj _, .bool _, h => by simp [jeqv] at h
  | .obj _, .num _, h => by simp [jeqv] at h
  | .obj _, .str _, h => by simp [jeqv] at h
  | .obj _, .arr _, h => by simp [jeqv] at h

theorem jeqvList_eq : ∀ a b : List JValue, jeqvList a b = true → a = b
  | [], [], _ => rfl
  | x :: xs, y :: ys, h => by
    have h' : jeqv x y = true ∧ jeqvList xs ys = true := by simpa [jeqvList] using h
    rw [jeqv_eq x y h'.1, jeqvList_eq xs ys h'.2]
  | [], _ :: _, h => by simp [jeqvList] at h
  | _ :: _, [], h => by simp [jeqvList] at h

theorem jeqvObj_eq : ∀ a b : List (String × JValue), jeqvObj a b = true → a = b
  | [], [], _ => rfl
  | (k, v) :: xs, (k', v') :: ys, h => by
    have h' : (k = k' ∧ jeqv v v' = true) ∧ jeqvObj xs ys = true := by
      simpa [jeqvObj] using h
    rw [h'.1.1, jeqv_eq v v' h'.1.2, jeqvObj_eq xs ys h'.2]
  | [], _ :: _, h => by simp [jeqvObj] at h
  | _ :: _, [], h => by simp [jeqvObj] at h

end

instance : DecidableEq JValue := fun a b =>
  if h : jeqv a b = true then isTrue (jeqv_eq a b h)
  else isFalse (fun he => h (he ▸ jeqv_refl a))

/-- Numeric view of a value: Python treats `bool` as a numeric type
(`True == 1`, `True > 0`), so both `num` and `bool` are numeric. -/
def pyNum : JValue → Option Int
  | .num n => some n
  | .bool b => some (if b then 1 else 0)
  | _ => none

mutual

/-- Python `==` on JSON-derived values: numeric cross-type equality
(`True == 1`), structural equality elsewhere, never an error. -/
def pyEq (a b : JValue) : Bool :=
  match pyNum a, pyNum b with
  | some x, some y => x == y
  | _, _ =>
    match a, b with
    | .null, .null => true
    | .str s, .str t => s == t
    | .arr xs, .arr ys => pyEqList xs ys
    | .obj xs, .obj ys => pyEqObj xs ys
    | _, _ => false

/-- Python `==` on lists: elementwise, same length. -/
def pyEqList : List JValue → List JValue → Bool
  | [], [] => true
  | x :: xs, y :: ys => pyEq x y && pyEqList xs ys
  | _, _ => false

/-- Python `==` on dicts.  JSON-parsed dicts have no duplicate keys and the
backend builds events by JSON parsing, so positional comparison of the
key-value list is faithful for the payloads that occur. -/
def pyEqObj : List (String × JValue) → List (String × JValue) → Bool
  | [], [] => true
  | (k, v) :: xs, (k', v') :: ys => k == k' && pyEq v v' && pyEqObj xs ys
  | _, _ => false

end

mutual

/-- Python ordered comparison (`<`, `>`, `<=`, `>=`) on JSON-derived values.
Defined for numeric pairs (including `bool`), string pairs and list pairs;
every other combination raises `TypeError`, which the rule engine does not
catch. -/
def pyCmp (a b : JValue) : Except String Ordering :=
  match pyNum a, pyNum b with
  | some x, some y => .ok (compare x y)
  | _, _ =>
    match a, b with
    | .str s, .str t => .ok (compare s t)
    | .arr xs, .arr ys => pyCmpList xs ys
    | _, _ => .error "TypeError: unorderable operand types"

/-- Python lexicographic comparison of lists. -/
def pyCmpList : List JValue → List JValue → Except String Ordering
  | [], [] => .ok .eq
  | [], _ :: _ => .ok .lt
  | _ :: _, [] => .ok .gt
  | x :: xs, y :: ys =>
    match pyCmp x y with
    | .error msg => .error msg
    | .ok .eq => pyCmpList xs ys
    | .ok o => .ok o

end

/-- Python truthiness of a JSON-derived value (`if not user_id:` in
`RuleEngine._execute_action`). -/
def pyTruthy : JValue → Bool
  | .null => false
  | .bool b => b
  | .num n => n != 0
  | .str s => s ≠ ""
  | .arr xs => xs ≠ []
  | .obj fs => fs ≠ []

mutual

/-- Python `str()` of a JSON-derived value, as used by `str(user_id)` and
the f-string building the idempotency-key preimage.  Containers render via
`repr`; string escaping inside `repr` is not modelled (the payloads the
claims exercise are plain identifiers). -/
def pyStr : JValue → String
  | .null => "None"
  | .bool b => if b then "True" else "False"
  | .num n => toString n
  | .str s => s
  | .arr xs => "[" ++ pyReprList xs ++ "]"
  | .obj fs => "\x7b" ++ pyReprObj fs ++ "\x7d"

/-- Python `repr()`, which `str()` delegates to inside containers.  For
`None`, booleans and integers `repr` and `str` coincide, so those cases
are spelled out identically. -/
def pyRepr : JValue → String
  | .null => "None"
  | .bool b => if b then "True" else "False"
  | .num n => toString n
  | .str s => "'" ++ s ++ "'"
  | .arr xs => "[" ++ pyReprList xs ++ "]"
  | .obj fs => "\x7b" ++ pyReprObj fs ++ "\x7d"

/-- Comma-separated `repr` of list elements. -/
def pyReprList : List JValue → String
  | [] => ""
  | [x] => pyRepr x
  | x :: xs => pyRepr x ++ ", " ++ pyReprList xs

/-- Comma-separated `repr` of dict items. -/
def pyReprObj : List (String × JValue) → String
  | [] => ""
  | [(k, v)] => "'" ++ k ++ "': " ++ pyRepr v
  | (k, v) :: xs => "'" ++ k ++ "': " ++ pyRepr v ++ ", " ++ pyReprObj xs

end

/-- Python membership `a in b`.  Lists test elementwise `==`; strings test
substring containment and require a string needle; dicts test keys and
require a hashable needle; scalars are not iterable.  Failures are the
`TypeError`s CPython raises. -/
def pyMem (a b : JValue) : Except String Bool :=
  match b with
  | .arr xs => .ok (xs.any (pyEq a))
  | .str s =>
    match a with
    | .str t => .ok (decide (List.IsInfix t.toList s.toList))
    | _ => .error "TypeError: in string requires string as left operand"
  | .obj fs =>
    match a with
    | .arr _ => .error "TypeError: unhashable type list"
    | .obj _ => .error "TypeError: unhashable type dict"
    | .str t => .ok (fs.any (fun kv => kv.1 == t))
    | _ => .ok false
  | _ => .error "TypeError: argument is not iterable"

/-- `models.EntryType`. -/
inductive EntryType where
  | CREDIT
  | DEBIT
  | REVERSAL
deriving DecidableEq, Repr

/-- `models.RewardStatus`. -/
inductive RewardStatus where
  | PENDING
  | CONFIRMED
  | PAID
  | REVERSED
deriving DecidableEq, Repr

/-- `schemas.LedgerCreditRequest`.  `amount_cents` is kept as an
unconstrained integer; the pydantic validators are the separate
`credit_amount_valid` below, mirroring how FastAPI validates before the
service runs. -/
structure LedgerCreditRequest where
  user_id : String
  amount_cents : Int
  reward_id : Option String := none
  reward_status : Option RewardStatus := some RewardStatus.PENDING
  extra_data : List (String × JValue) := []
deriving DecidableEq

/-- `schemas.LedgerDebitRequest`. -/
structure LedgerDebitRequest where
  user_id : String
  amount_cents : Int
  extra_data : List (String × JValue) := []
deriving DecidableEq

/-- `schemas.LedgerReversalRequest`.  Entry ids (`uuid.UUID` in the source)
are modelled as the naturals handed out by the fresh-id counter. -/
structure LedgerReversalRequest where
  entry_id : Nat
  reason : String
  extra_data : List (String × JValue) := []
deriving DecidableEq

/-- The canonical dump of a mutation request (`request.model_dump()`), the
input of `_compute_request_hash`. -/
inductive RequestData where
  | creditData (r : LedgerCreditRequest)
  | debitData (r : LedgerDebitRequest)
  | reversalData (r : LedgerReversalRequest)
deriving DecidableEq

/-- `LedgerService._compute_request_hash`: SHA-256 over the canonical
sorted-keys JSON dump.  The hash is modelled as an injective function of
the dumped request; the digest is represented by the dump itself (the
source only ever compares digests for equality). -/
def compute_request_hash (d : RequestData) : RequestData := d

/-- `models.LedgerEntry`.  Of the `extra_data` audit bag the service reads
back only `extra_data["request_hash"]`, which is the `request_hash` field
here; the other audit keys (operation, timestamp, reason, ...) are
write-only and not modelled. -/
structure LedgerEntry where
  id : Nat
  user_id : String
  entry_type : EntryType
  amount_cents : Int
  reward_id : Option String
  reward_status : Option RewardStatus
  idempotency_key : String
  related_entry_id : Option Nat
  request_hash : RequestData
deriving DecidableEq

/-- `models.UserBalance` (the `user_id` key is the association-list key). -/
structure UserBalance where
  balance_cents : Int
  version : Nat
deriving DecidableEq

/-- The persistent state the ledger service sees: the append-only
`ledger_entries` table in commit order, the `user_balances` table as an
association list, and the fresh-id counter standing in for `uuid.uuid4`. -/
structure LedgerState where
  entries : List LedgerEntry
  balances : List (String × UserBalance)
  next_id : Nat
deriving DecidableEq

/-- The empty database. -/
def initialState : LedgerState := { entries := [], balances := [], next_id := 0 }

/-- Error outcomes of the ledger service (`HTTPException` kinds raised in
`ledger_service.py`).  An error rolls back the transaction, so the caller's
state is unchanged whenever one is returned. -/
inductive LedgerError where
  | idempotencyConflict
  | notFound
  | alreadyReversed
  | insufficientFunds
deriving DecidableEq, Repr

instance {e a : Type} [DecidableEq e] [DecidableEq a] : DecidableEq (Except e a)
  | .ok x, .ok y =>
    if h : x = y then isTrue (by rw [h]) else isFalse (by intro hc; cases hc; exact h rfl)
  | .error x, .error y =>
    if h : x = y then isTrue (by rw [h]) else isFalse (by intro hc; cases hc; exact h rfl)
  | .ok _, .error _ => isFalse (by intro hc; cases hc)
  | .error _, .ok _ => isFalse (by intro hc; cases hc)

/-- The `LedgerEntry.idempotency_key == idempotency_key` query used by
`_check_idempotency` and the unique-violation handlers. -/
def findByKey (entries : List LedgerEntry) (idempotency_key : String) : Option LedgerEntry :=
  entries.find? (fun e => e.idempotency_key == idempotency_key)

/-- `LedgerService._check_idempotency`: look the key up; if present compare
the stored `request_hash` with the hash of the incoming request and either
return the cached entry or raise 409. -/
def check_idempotency (s : LedgerState) (idempotency_key : String) (d : RequestData) :
    Except LedgerError (Option LedgerEntry) :=
  match findByKey s.entries idempotency_key with
  | some existing_entry =>
    if compute_request_hash d = existing_entry.request_hash then .ok (some existing_entry)
    else .error .idempotencyConflict
  | none => .ok none

/-- Read a user's balance row; a missing row behaves as the zero balance
`_get_or_create_balance` would create (`balance_cents = 0, version = 1`). -/
def lookupBalance (balances : List (String × UserBalance)) (user_id : String) : UserBalance :=
  match balances.find? (fun kv => kv.1 == user_id) with
  | some kv => kv.2
  | none => { balance_cents := 0, version := 1 }

/-- Store a user's balance row: update in place when present, append the
row `_get_or_create_balance` lazily created otherwise. -/
def setBalance (balances : List (String × UserBalance)) (user_id : String) (v : UserBalance) :
    List (String × UserBalance) :=
  match balances with
  | [] => [(user_id, v)]
  | (k, w) :: rest =>
    if k = user_id then (k, v) :: rest else (k, w) :: setBalance rest user_id v

/-- `LedgerService.credit`.  Returns `(entry, is_duplicate)` plus the
committed state; errors roll the transaction back. -/
def credit (s : LedgerState) (request : LedgerCreditRequest) (idempotency_key : String) :
    Except LedgerError (LedgerEntry × Bool × LedgerState) :=
  let request_hash := compute_request_hash (.creditData request)
  match check_idempotency s idempotency_key (.creditData request) with
  | .error e => .error e
  | .ok (some existing_entry) => .ok (existing_entry, true, s)
  | .ok none =>
    let user_balance := lookupBalance s.balances request.user_id
    let ledger_entry : LedgerEntry := {
      id := s.next_id
      user_id := request.user_id
      entry_type := .CREDIT
      amount_cents := request.amount_cents
      reward_id := request.reward_id
      reward_status := some (request.reward_status.getD .PENDING)
      idempotency_key := idempotency_key
      related_entry_id := none
      request_hash := request_hash }
    .ok (ledger_entry, false,
      { entries := s.entries ++ [ledger_entry]
        balances := setBalance s.balances request.user_id
          { balance_cents := user_balance.balance_cents + request.amount_cents
            version := user_balance.version + 1 }
        next_id := s.next_id + 1 })

/-- `LedgerService.debit`: like credit, plus the insufficient-balance check
performed after acquiring the balance row. -/
def debit (s : LedgerState) (request : LedgerDebitRequest) (idempotency_key : String) :
    Except LedgerError (LedgerEntry × Bool × LedgerState) :=
  let request_hash := compute_request_hash (.debitData request)
  match check_idempotency s idempotency_key (.debitData request) with
  | .error e => .error e
  | .ok (some existing_entry) => .ok (existing_entry, true, s)
  | .ok none =>
    let user_balance := lookupBalance s.balances request.user_id
    if user_balance.balance_cents < request.amount_cents then .error .insufficientFunds
    else
      let ledger_entry : LedgerEntry := {
        id := s.next_id
        user_id := request.user_id
        entry_type := .DEBIT
        amount_cents := request.amount_cents
        reward_id := none
        reward_status := none
        idempotency_key := idempotency_key
        related_entry_id := none
        request_hash := request_hash }
      .ok (ledger_entry, false,
        { entries := s.entries ++ [ledger_entry]
          balances := setBalance s.balances request.user_id
            { balance_cents := user_balance.balance_cents - request.amount_cents
              version := user_balance.version + 1 }
          next_id := s.next_id + 1 })

/-- `LedgerService.reverse`: fetch the original entry, refuse when a
REVERSAL already references it, then append an offsetting REVERSAL entry.
The balance offset matches the source's if/elif: subtract for a CREDIT
original (guarded by the non-negative check), add for a DEBIT original,
and fall through with no offset when the original is itself a REVERSAL. -/
def reverse (s : LedgerState) (request : LedgerReversalRequest) (idempotency_key : String) :
    Except LedgerError (LedgerEntry × Bool × LedgerState) :=
  let request_hash := compute_request_hash (.reversalData request)
  match check_idempotency s idempotency_key (.reversalData request) with
  | .error e => .error e
  | .ok (some existing_entry) => .ok (existing_entry, true, s)
  | .ok none =>
    match s.entries.find? (fun e => e.id == request.entry_id) with
    | none => .error .notFound
    | some original_entry =>
      match s.entries.find? (fun e =>
          e.entry_type == .REVERSAL && e.related_entry_id == some request.entry_id) with
      | some _ => .error .alreadyReversed
      | none =>
        let user_balance := lookupBalance s.balances original_entry.user_id
        let reversal_entry : LedgerEntry := {
          id := s.next_id
          user_id := original_entry.user_id
          entry_type := .REVERSAL
          amount_cents := original_entry.amount_cents
          reward_id := original_entry.reward_id
          reward_status :=
            if original_entry.reward_status.isSome then some .REVERSED else none
          idempotency_key := idempotency_key
          related_entry_id := some original_entry.id
          request_hash := request_hash }
        let commit (b : Int) : Except LedgerError (LedgerEntry × Bool × LedgerState) :=
          .ok (reversal_entry, false,
            { entries := s.entries ++ [reversal_entry]
              balances := setBalance s.balances original_entry.user_id
                { balance_cents := b, version := user_balance.version + 1 }
              next_id := s.next_id + 1 })
        match original_entry.entry_type with
        | .CREDIT =>
          if user_balance.balance_cents < original_entry.amount_cents then
            .error .insufficientFunds
          else commit (user_balance.balance_cents - original_entry.amount_cents)
        | .DEBIT => commit (user_balance.balance_cents + original_entry.amount_cents)
        | .REVERSAL => commit user_balance.balance_cents

/-- One API-level mutation: a request plus its `Idempotency-Key` header. -/
inductive Op where
  | creditOp (r : LedgerCreditRequest) (k : String)
  | debitOp (r : LedgerDebitRequest) (k : String)
  | reverseOp (r : LedgerReversalRequest) (k : String)

/-- Apply one mutation; a failed call rolls back and leaves the state
unchanged. -/
def applyOp (s : LedgerState) : Op → LedgerState
  | .creditOp r k => match credit s r k with | .ok (_, _, s') => s' | .error _ => s
  | .debitOp r k => match debit s r k with | .ok (_, _, s') => s' | .error _ => s
  | .reverseOp r k => match reverse s r k with | .ok (_, _, s') => s' | .error _ => s

/-- Run a finite sequence of mutation attempts from the empty database. -/
def runOps (ops : List Op) : LedgerState := ops.foldl applyOp initialState

/-- A rule condition (`rule_api.RuleCondition`, consumed by
`RuleEngine._evaluate_condition`).  The API schema guarantees `field` and
`operator` are strings, so the engine's defaulted dict reads
(`condition.get("field", "")` etc.) are plain field accesses here. -/
structure RuleCondition where
  field : String
  operator : String
  value : JValue
deriving DecidableEq

/-- A rule action (`rule_api.RuleAction`, consumed by
`RuleEngine._execute_action`).  The API schema requires `reward_id`, so
the `str(uuid.uuid4())` fallback for an absent `reward_id` never fires for
stored rules and is not modelled.  `user` defaults to `"user_id"`. -/
structure RuleAction where
  type : String
  user : String := "user_id"
  amount_cents : Int
  reward_id : String
deriving DecidableEq

/-- `rule_api.RuleJSON`: the validated shape of `rule_json`. -/
structure RuleJson where
  conditions : List RuleCondition
  actions : List RuleAction
  logic : String := "AND"
deriving DecidableEq

/-- `models.ReferralRule` (ids are strings; `is_active` is the integer the
column stores, 1 = active). -/
structure ReferralRule where
  id : String
  name : String
  rule_json : RuleJson
  is_active : Int
deriving DecidableEq

/-- Python `field_path.split(".")` on the character list: splitting on a
single-character separator, where the empty string yields `[""]` (exactly
CPython's behaviour for `str.split` with an explicit separator). -/
def splitDotAux : List Char → List Char → List String
  | [], acc => [String.mk acc.reverse]
  | c :: rest, acc =>
    if c = '.' then String.mk acc.reverse :: splitDotAux rest []
    else splitDotAux rest (c :: acc)

/-- `field_path.split(".")`. -/
def pySplitDot (s : String) : List String := splitDotAux s.data []

/-- The dotted-path walk in `RuleEngine._evaluate_condition`: `none` means
the walk hit a non-dict intermediate value and the condition is immediately
false; `some v` is the resolved operand, where a key missing from a dict
resolves to Python `None` (`dict.get`) and the walk continues. -/
def walkPath : JValue → List String → Option JValue
  | v, [] => some v
  | v, key :: rest =>
    match v with
    | .obj fields => walkPath ((fields.lookup key).getD .null) rest
    | _ => none

/-- `RuleEngine._evaluate_condition`.  An `Except.error` is a `TypeError`
escaping the engine (nothing in `evaluate_event` catches it). -/
def evaluate_condition (condition : RuleCondition) (event_data : JValue) :
    Except String Bool :=
  match walkPath event_data (pySplitDot condition.field) with
  | none => .ok false
  | some actual_value =>
    let expected_value := condition.value
    if condition.operator = "==" then .ok (pyEq actual_value expected_value)
    else if condition.operator = "!=" then .ok (!pyEq actual_value expected_value)
    else if condition.operator = ">" then
      (pyCmp actual_value expected_value).map (fun o => o == .gt)
    else if condition.operator = "<" then
      (pyCmp actual_value expected_value).map (fun o => o == .lt)
    else if condition.operator = ">=" then
      (pyCmp actual_value expected_value).map (fun o => o != .lt)
    else if condition.operator = "<=" then
      (pyCmp actual_value expected_value).map (fun o => o != .gt)
    else if condition.operator = "in" then pyMem actual_value expected_value
    else if condition.operator = "not_in" then
      (pyMem actual_value expected_value).map (fun b => !b)
    else if condition.operator = "contains" then pyMem expected_value actual_value
    else .ok false

/-- `RuleEngine._evaluate_conditions`: evaluate every condition (the list
comprehension evaluates all of them, erroring on the first raise), then
combine with AND / OR (unknown logic defaults to AND). -/
def evaluate_conditions (conditions : List RuleCondition) (event_data : JValue)
    (logic : String) : Except String Bool :=
  if conditions.isEmpty then .ok true
  else
    match conditions.mapM (fun c => evaluate_condition c event_data) with
    | .error msg => .error msg
    | .ok results =>
      if logic = "AND" then .ok (results.all id)
      else if logic = "OR" then .ok (results.any id)
      else .ok (results.all id)

/-- Why a rule action reported failure (the `success: False` dictionaries
of `RuleEngine._execute_action`; the Python code stores the stringified
exception, we keep the structured cause). -/
inductive ActionFailure where
  | userFieldNotFound (user_field : String)
  | ledgerError (e : LedgerError)
  | debitNotImplemented
  | unknownActionType (t : String)
deriving DecidableEq, Repr

/-- The result dictionary of one executed action. -/
inductive ActionResult where
  | success (entry_id : Nat) (amount_cents : Int) (is_duplicate : Bool)
  | failure (f : ActionFailure)
deriving DecidableEq, Repr

/-- Render a `RuleAction` back into the JSON-like dict the engine embeds
under `extra_data["action"]` (the `"action": action` audit field). -/
def actionToJson (a : RuleAction) : JValue :=
  .obj [("type", .str a.type), ("user", .str a.user),
        ("amount_cents", .num a.amount_cents), ("reward_id", .str a.reward_id)]

/-- The UUIDv5 the engine derives:
`uuid.uuid5(uuid.NAMESPACE_DNS, name)`.  Modelled as an injective function
of `name`; the UUID is represented by its preimage string (the ledger only
compares keys for equality). -/
def uuid5_dns (name : String) : String := name

/-- `RuleEngine._execute_action` for one action: resolve the target user
from the event, build the credit request (whose hashed `extra_data`
includes the wall-clock timestamp `now`), derive the idempotency key as
UUIDv5 of `"reward_id:user_id:event_id"`, and call the ledger, catching
every ledger exception as a per-action failure. -/
def execute_action (s : LedgerState) (action : RuleAction) (event_data : JValue)
    (now : String) : ActionResult × LedgerState :=
  if action.type = "credit" then
    let user_value :=
      (match event_data with
       | .obj fields => (fields.lookup action.user).getD .null
       | _ => .null)
    if !pyTruthy user_value then (.failure (.userFieldNotFound action.user), s)
    else
      let user_id := pyStr user_value
      let credit_request : LedgerCreditRequest := {
        user_id := user_id
        amount_cents := action.amount_cents
        reward_id := some action.reward_id
        reward_status := some .CONFIRMED
        extra_data := [
          ("source", .str "rule_engine"),
          ("action", actionToJson action),
          ("event_data", event_data),
          ("timestamp", .str now)] }
      let event_id_value :=
        (match event_data with
         | .obj fields => (fields.lookup "event_id").getD (.str "")
         | _ => .str "")
      let idempotency_data :=
        action.reward_id ++ ":" ++ pyStr user_value ++ ":" ++ pyStr event_id_value
      let idempotency_key := uuid5_dns idempotency_data
      match credit s credit_request idempotency_key with
      | .ok (entry, is_duplicate, s') =>
        (.success entry.id action.amount_cents is_duplicate, s')
      | .error e => (.failure (.ledgerError e), s)
  else if action.type = "debit" then (.failure .debitNotImplemented, s)
  else (.failure (.unknownActionType action.type), s)

/-- Execute a matched rule's actions in declared order, threading the
ledger state (each successful credit commits immediately). -/
def execute_actions (s : LedgerState) (actions : List RuleAction) (event_data : JValue)
    (now : String) : List ActionResult × LedgerState :=
  match actions with
  | [] => ([], s)
  | a :: rest =>
    let (r, s') := execute_action s a event_data now
    let (rs, s'') := execute_actions s' rest event_data now
    (r :: rs, s'')

/-- One row of the `results` list `evaluate_event` returns. -/
structure RuleResult where
  rule_id : String
  rule_name : String
  conditions_met : Bool
  actions_executed : List ActionResult
deriving DecidableEq, Repr

/-- The dictionary `RuleEngine.evaluate_event` returns. -/
structure EvalResult where
  event_data : JValue
  rules_evaluated : Nat
  rules_triggered : Nat
  results : List RuleResult
deriving DecidableEq

/-- The per-rule loop of `RuleEngine.evaluate_event`.  A `TypeError` from
condition evaluation escapes (first component `.error`), but credits
committed by earlier rules persist, hence the state is returned
separately. -/
def evalRulesLoop (event_data : JValue) (now : String) :
    List ReferralRule → LedgerState → List RuleResult →
    Except String EvalResult × LedgerState
  | [], s, acc =>
    (.ok { event_data := event_data
           rules_evaluated := acc.length
           rules_triggered := (acc.filter (fun r => r.conditions_met)).length
           results := acc }, s)
  | rule :: rest, s, acc =>
    match evaluate_conditions rule.rule_json.conditions event_data rule.rule_json.logic with
    | .error msg => (.error msg, s)
    | .ok true =>
      let (action_results, s') := execute_actions s rule.rule_json.actions event_data now
      evalRulesLoop event_data now rest s'
        (acc ++ [{ rule_id := rule.id, rule_name := rule.name,
                   conditions_met := true, actions_executed := action_results }])
    | .ok false =>
      evalRulesLoop event_data now rest s
        (acc ++ [{ rule_id := rule.id, rule_name := rule.name,
                   conditions_met := false, actions_executed := [] }])

/-- `RuleEngine.evaluate_event`: filter the active rules (narrowed to
`rule_id` when given), evaluate each, execute matched actions. -/
def evaluate_event (db_rules : List ReferralRule) (s : LedgerState) (event_data : JValue)
    (rule_id : Option String) (now : String) : Except String EvalResult × LedgerState :=
  let rules := db_rules.filter (fun r =>
    r.is_active == 1 &&
    (match rule_id with
     | some rid => r.id == rid
     | none => true))
  evalRulesLoop event_data now rules s []

/-- The `amount_cents` validation run by FastAPI for a credit request:
pydantic `Field(gt=0)` plus the `validate_amount` validator of
`schemas.LedgerCreditRequest` (positive, at most 10^9). -/
def credit_amount_valid (v : Int) : Bool :=
  decide (0 < v) && !decide (v ≤ 0) && !decide (1000000000 < v)

/-- The `amount_cents` validation for a debit request: pydantic
`Field(gt=0)` plus the `validate_amount` validator of
`schemas.LedgerDebitRequest`, which only re-checks positivity (it has no
upper-bound clause). -/
def debit_amount_valid (v : Int) : Bool :=
  decide (0 < v) && !decide (v ≤ 0)

/-- Validation of one action by `rule_api.RuleAction`: `type`, `user` and
`reward_id` are arbitrary strings (only their type is checked) and
`amount_cents` must be positive (`Field(gt=0)`). -/
def rule_action_valid (a : RuleAction) : Bool := decide (0 < a.amount_cents)

/-- Validation of `rule_json` by `rule_api.RuleJSON` /
`CreateRuleRequest`: every condition parses (any strings are accepted for
`field` and `operator`, any JSON for `value`) and every action is valid.
No operator or action-type whitelist exists anywhere on the creation
path. -/
def rule_json_valid (rj : RuleJson) : Bool := rj.actions.all rule_action_valid

/-- `RuleEngine.create_rule`: store the rule unconditionally (validation
happened, if at all, in the API schema layer); the new rule is active. -/
def create_rule (store : List ReferralRule) (id : String) (name : String)
    (rule_json : RuleJson) : List ReferralRule :=
  store ++ [{ id := id, name := name, rule_json := rule_json, is_active := 1 }]

/-- The contribution of one ledger entry to user `u`'s balance, per the
specification's invariant: CREDITs add, DEBITs subtract, and a REVERSAL
contributes the opposite of its original entry (looked up by
`related_entry_id` in the given entries list). -/
def entryDelta (entries : List LedgerEntry) (u : String) (e : LedgerEntry) : Int :=
  match e.entry_type with
  | .CREDIT => if e.user_id = u then e.amount_cents else 0
  | .DEBIT => if e.user_id = u then -e.amount_cents else 0
  | .REVERSAL =>
    match e.related_entry_id with
    | none => 0
    | some oid =>
      match entries.find? (fun e' => e'.id == oid) with
      | none => 0
      | some orig =>
        if orig.user_id = u then
          match orig.entry_type with
          | .DEBIT => e.amount_cents
          | .CREDIT => -e.amount_cents
          | .REVERSAL => 0
        else 0

/-- The specification's closed form for a balance: the sum over the ledger
of each entry's contribution to `u`. -/
def specBalance (entries : List LedgerEntry) (u : String) : Int :=
  (entries.map (entryDelta entries u)).sum

theorem lookupBalance_setBalance_self (l : List (String × UserBalance)) (u : String)
    (v : UserBalance) : lookupBalance (setBalance l u v) u = v := by
  induction l with
  | nil => simp [setBalance, lookupBalance]
  | cons kv rest ih =>
    obtain ⟨k, w⟩ := kv
    by_cases hk : k = u
    · simp [setBalance, hk, lookupBalance]
    · simp [setBalance, hk, lookupBalance, List.find?_cons, beq_eq_false_iff_ne.mpr hk]
      simpa [lookupBalance] using ih

theorem lookupBalance_setBalance_ne (l : List (String × UserBalance)) (u u' : String)
    (v : UserBalance) (h : u' ≠ u) :
    lookupBalance (setBalance l u v) u' = lookupBalance l u' := by
  induction l with
  | nil =>
    simp [setBalance, lookupBalance, List.find?_cons, beq_eq_false_iff_ne.mpr (Ne.symm h)]
  | cons kv rest ih =>
    obtain ⟨k, w⟩ := kv
    by_cases hk : k = u
    · subst hk
      simp [setBalance, lookupBalance, List.find?_cons, beq_eq_false_iff_ne.mpr (Ne.symm h)]
    · simp only [setBalance, if_neg hk]
      by_cases hk' : k = u'
      · simp [lookupBalance, List.find?_cons, hk']
      · simp only [lookupBalance, List.find?_cons, beq_eq_false_iff_ne.mpr hk']
        simpa [lookupBalance] using ih

theorem entryDelta_append_fresh (entries : List LedgerEntry) (new : LedgerEntry)
    (u : String) (e : LedgerEntry)
    (h : ∀ oid, e.related_entry_id = some oid → (new.id == oid) = false) :
    entryDelta (entries ++ [new]) u e = entryDelta entries u e := by
  cases hty : e.entry_type
  · simp [entryDelta, hty]
  · simp [entryDelta, hty]
  · cases hrel : e.related_entry_id with
    | none => simp [entryDelta, hty, hrel]
    | some oid =>
      have hstep : (entries ++ [new]).find? (fun e' => e'.id == oid)
          = entries.find? (fun e' => e'.id == oid) := by
        rw [List.find?_append]
        cases hfind : entries.find? (fun e' => e'.id == oid) with
        | some orig => rfl
        | none => simp [List.find?_cons, h oid hrel]
      simp [entryDelta, hty, hrel, hstep]

theorem specBalance_append_fresh (entries : List LedgerEntry) (new : LedgerEntry)
    (u : String)
    (h : ∀ e ∈ entries, ∀ oid, e.related_entry_id = some oid → (new.id == oid) = false) :
    specBalance (entries ++ [new]) u
      = specBalance entries u + entryDelta (entries ++ [new]) u new := by
  unfold specBalance
  rw [List.map_append, List.sum_append,
    List.map_congr_left (fun e he => entryDelta_append_fresh entries new u e (h e he))]
  simp

/-- Ids handed out so far are below the fresh-id counter, both for entries
and for the originals that REVERSAL entries reference. -/
def FreshIds (s : LedgerState) : Prop :=
  (∀ e ∈ s.entries, e.id < s.next_id) ∧
  (∀ e ∈ s.entries, ∀ oid, e.related_entry_id = some oid → oid < s.next_id)

/-- Every stored balance row agrees with the specification's closed form
over the ledger. -/
def BalancesMatch (s : LedgerState) : Prop :=
  ∀ u, (lookupBalance s.balances u).balance_cents = specBalance s.entries u

/-- The inductive invariant carried through every mutation. -/
def LedgerInv (s : LedgerState) : Prop := FreshIds s ∧ BalancesMatch s

theorem ledgerInv_initial : LedgerInv initialState := by
  refine ⟨⟨?_, ?_⟩, fun u => ?_⟩ <;> simp [initialState, FreshIds, BalancesMatch, lookupBalance, specBalance]

theorem inv_append_entry (s : LedgerState) (le : LedgerEntry) (bal : UserBalance)
    (hInv : LedgerInv s)
    (hid : le.id = s.next_id)
    (hrel : ∀ oid, le.related_entry_id = some oid → oid < s.next_id)
    (hbal : bal.balance_cents
      = (lookupBalance s.balances le.user_id).balance_cents
        + entryDelta (s.entries ++ [le]) le.user_id le)
    (hdelta0 : ∀ u, u ≠ le.user_id → entryDelta (s.entries ++ [le]) u le = 0) :
    LedgerInv { entries := s.entries ++ [le]
                balances := setBalance s.balances le.user_id bal
                next_id := s.next_id + 1 } := by
  obtain ⟨⟨hids, hrels⟩, hmatch⟩ := hInv
  have hfreshpred : ∀ e ∈ s.entries, ∀ oid, e.related_entry_id = some oid →
      (le.id == oid) = false := by
    intro e he oid hoid
    have : oid < s.next_id := hrels e he oid hoid
    exact beq_eq_false_iff_ne.mpr (by omega)
  refine ⟨⟨?_, ?_⟩, ?_⟩
  · intro e he
    rcases List.mem_append.mp he with h' | h'
    · exact Nat.lt_succ_of_lt (hids e h')
    · simp only [List.mem_singleton] at h'
      show e.id < s.next_id + 1
      rw [h', hid]
      omega
  · intro e he oid hoid
    rcases List.mem_append.mp he with h' | h'
    · exact Nat.lt_succ_of_lt (hrels e h' oid hoid)
    · simp only [List.mem_singleton] at h'
      subst h'
      exact Nat.lt_succ_of_lt (hrel oid hoid)
  · intro u
    show (lookupBalance (setBalance s.balances le.user_id bal) u).balance_cents
      = specBalance (s.entries ++ [le]) u
    rw [specBalance_append_fresh s.entries le u hfreshpred]
    by_cases hu : u = le.user_id
    · subst hu
      rw [lookupBalance_setBalance_self, hbal, hmatch le.user_id]
    · rw [lookupBalance_setBalance_ne s.balances le.user_id u bal hu, hmatch u,
        hdelta0 u hu]
      ring

theorem entryDelta_credit (entries : List LedgerEntry) (u : String) (e : LedgerEntry)
    (hty : e.entry_type = .CREDIT) :
    entryDelta entries u e = if e.user_id = u then e.amount_cents else 0 := by
  simp [entryDelta, hty]

theorem entryDelta_debit (entries : List LedgerEntry) (u : String) (e : LedgerEntry)
    (hty : e.entry_type = .DEBIT) :
    entryDelta entries u e = if e.user_id = u then -e.amount_cents else 0 := by
  simp [entryDelta, hty]

theorem entryDelta_reversal (entries : List LedgerEntry) (u : String) (e : LedgerEntry)
    (oid : Nat) (orig : LedgerEntry)
    (hty : e.entry_type = .REVERSAL) (hrel : e.related_entry_id = some oid)
    (hfind : entries.find? (fun x => x.id == oid) = some orig) :
    entryDelta entries u e =
      if orig.user_id = u then
        (match orig.entry_type with
         | .DEBIT => e.amount_cents
         | .CREDIT => -e.amount_cents
         | .REVERSAL => 0)
      else 0 := by
  simp [entryDelta, hty, hrel, hfind]

theorem credit_inv (s : LedgerState) (r : LedgerCreditRequest) (k : String)
    (e : LedgerEntry) (b : Bool) (s' : LedgerState)
    (h : LedgerInv s) (hc : credit s r k = .ok (e, b, s')) : LedgerInv s' := by
  simp only [credit] at hc
  cases hchk : check_idempotency s k (RequestData.creditData r) with
  | error err =>
    rw [hchk] at hc
    cases hc
  | ok oe =>
    rw [hchk] at hc
    cases oe with
    | some ex =>
      simp only [Except.ok.injEq, Prod.mk.injEq] at hc
      obtain ⟨rfl, rfl, rfl⟩ := hc
      exact h
    | none =>
      simp only [Except.ok.injEq, Prod.mk.injEq] at hc
      obtain ⟨rfl, rfl, rfl⟩ := hc
      refine inv_append_entry s _ _ h rfl ?_ ?_ ?_
      · intro oid hoid
        cases hoid
      · rw [entryDelta_credit _ _ _ rfl]
        simp
      · intro u hu
        rw [entryDelta_credit _ _ _ rfl]
        simp only
        rw [if_neg (Ne.symm hu)]

theorem debit_inv (s : LedgerState) (r : LedgerDebitRequest) (k : String)
    (e : LedgerEntry) (b : Bool) (s' : LedgerState)
    (h : LedgerInv s) (hc : debit s r k = .ok (e, b, s')) : LedgerInv s' := by
  simp only [debit] at hc
  cases hchk : check_idempotency s k (RequestData.debitData r) with
  | error err =>
    rw [hchk] at hc
    cases hc
  | ok oe =>
    rw [hchk] at hc
    cases oe with
    | some ex =>
      simp only [Except.ok.injEq, Prod.mk.injEq] at hc
      obtain ⟨rfl, rfl, rfl⟩ := hc
      exact h
    | none =>
      dsimp only at hc
      split at hc
      · cases hc
      · simp only [Except.ok.injEq, Prod.mk.injEq] at hc
        obtain ⟨rfl, rfl, rfl⟩ := hc
        refine inv_append_entry s _ _ h rfl ?_ ?_ ?_
        · intro oid hoid
          cases hoid
        · rw [entryDelta_debit _ _ _ rfl]
          simp
          ring
        · intro u hu
          rw [entryDelta_debit _ _ _ rfl]
          simp only
          rw [if_neg (Ne.symm hu)]

theorem reverse_inv (s : LedgerState) (rq : LedgerReversalRequest) (k : String)
    (e : LedgerEntry) (b : Bool) (s' : LedgerState)
    (h : LedgerInv s) (hc : reverse s rq k = .ok (e, b, s')) : LedgerInv s' := by
  simp only [reverse] at hc
  cases hchk : check_idempotency s k (RequestData.reversalData rq) with
  | error err =>
    rw [hchk] at hc
    cases hc
  | ok oe =>
    rw [hchk] at hc
    cases oe with
    | some ex =>
      simp only [Except.ok.injEq, Prod.mk.injEq] at hc
      obtain ⟨rfl, rfl, rfl⟩ := hc
      exact h
    | none =>
      cases horig : s.entries.find? (fun x => x.id == rq.entry_id) with
      | none =>
        rw [horig] at hc
        dsimp only at hc
        cases hc
      | some orig =>
        rw [horig] at hc
        dsimp only at hc
        cases hrv : s.entries.find? (fun x =>
            x.entry_type == EntryType.REVERSAL && x.related_entry_id == some rq.entry_id) with
        | some prev =>
          rw [hrv] at hc
          cases hc
        | none =>
          rw [hrv] at hc
          dsimp only at hc
          have horigmem : orig ∈ s.entries := List.mem_of_find?_eq_some horig
          have horigid : orig.id = rq.entry_id := by
            have := List.find?_some horig
            simpa using this
          have hfind' : ∀ le : LedgerEntry,
              (s.entries ++ [le]).find? (fun x => x.id == orig.id) = some orig := by
            intro le
            rw [List.find?_append, horigid, horig]
            rfl
          have hrelfresh : ∀ oid, (some orig.id : Option Nat) = some oid → oid < s.next_id := by
            intro oid hoid
            cases hoid
            exact h.1.1 orig horigmem
          cases hty : orig.entry_type with
          | CREDIT =>
            rw [hty] at hc
            dsimp only at hc
            split at hc
            · cases hc
            · simp only [Except.ok.injEq, Prod.mk.injEq] at hc
              obtain ⟨rfl, rfl, rfl⟩ := hc
              refine inv_append_entry s _ _ h rfl hrelfresh ?_ ?_
              · rw [entryDelta_reversal _ _ _ orig.id orig rfl rfl (hfind' _)]
                simp [hty]
                ring
              · intro u hu
                rw [entryDelta_reversal _ _ _ orig.id orig rfl rfl (hfind' _)]
                simp only
                rw [if_neg (Ne.symm hu)]
          | DEBIT =>
            rw [hty] at hc
            dsimp only at hc
            simp only [Except.ok.injEq, Prod.mk.injEq] at hc
            obtain ⟨rfl, rfl, rfl⟩ := hc
            refine inv_append_entry s _ _ h rfl hrelfresh ?_ ?_
            · rw [entryDelta_reversal _ _ _ orig.id orig rfl rfl (hfind' _)]
              simp [hty]
            · intro u hu
              rw [entryDelta_reversal _ _ _ orig.id orig rfl rfl (hfind' _)]
              simp only
              rw [if_neg (Ne.symm hu)]
          | REVERSAL =>
            rw [hty] at hc
            dsimp only at hc
            simp only [Except.ok.injEq, Prod.mk.injEq] at hc
            obtain ⟨rfl, rfl, rfl⟩ := hc
            refine inv_append_entry s _ _ h rfl hrelfresh ?_ ?_
            · rw [entryDelta_reversal _ _ _ orig.id orig rfl rfl (hfind' _)]
              simp [hty]
            · intro u hu
              rw [entryDelta_reversal _ _ _ orig.id orig rfl rfl (hfind' _)]
              simp only
              rw [if_neg (Ne.symm hu)]

theorem ledgerInv_applyOp (s : LedgerState) (op : Op) (h : LedgerInv s) :
    LedgerInv (applyOp s op) := by
  cases op with
  | creditOp r k =>
    dsimp only [applyOp]
    cases hc : credit s r k with
    | ok x =>
      obtain ⟨e, b, s'⟩ := x
      exact credit_inv s r k e b s' h hc
    | error _ => exact h
  | debitOp r k =>
    dsimp only [applyOp]
    cases hc : debit s r k with
    | ok x =>
      obtain ⟨e, b, s'⟩ := x
      exact debit_inv s r k e b s' h hc
    | error _ => exact h
  | reverseOp r k =>
    dsimp only [applyOp]
    cases hc : reverse s r k with
    | ok x =>
      obtain ⟨e, b, s'⟩ := x
      exact reverse_inv s r k e b s' h hc
    | error _ => exact h

theorem ledgerInv_foldl (ops : List Op) (s : LedgerState) (h : LedgerInv s) :
    LedgerInv (ops.foldl applyOp s) := by
  induction ops generalizing s with
  | nil => exact h
  | cons op rest ih => exact ih _ (ledgerInv_applyOp s op h)

theorem ledgerInv_runOps (ops : List Op) : LedgerInv (runOps ops) :=
  ledgerInv_foldl ops initialState ledgerInv_initial

/-- Sum of the amounts of the CREDIT entries of user `u`. -/
def creditsTo (entries : List LedgerEntry) (u : String) : Int :=
  ((entries.filter (fun e => e.entry_type == EntryType.CREDIT && e.user_id == u)).map
    (fun e => e.amount_cents)).sum

/-- Sum of the amounts of the DEBIT entries of user `u`. -/
def debitsFrom (entries : List LedgerEntry) (u : String) : Int :=
  ((entries.filter (fun e => e.entry_type == EntryType.DEBIT && e.user_id == u)).map
    (fun e => e.amount_cents)).sum

/-- The original entry a REVERSAL references, resolved by
`related_entry_id`. -/
def originalOf (entries : List LedgerEntry) (e : LedgerEntry) : Option LedgerEntry :=
  match e.related_entry_id with
  | some oid => entries.find? (fun x => x.id == oid)
  | none => none

/-- Does `e` reverse an entry of type `ty` belonging to user `u`? -/
def reversalOfType (entries : List LedgerEntry) (ty : EntryType) (u : String)
    (e : LedgerEntry) : Bool :=
  e.entry_type == EntryType.REVERSAL &&
    (match originalOf entries e with
     | some orig => orig.entry_type == ty && orig.user_id == u
     | none => false)

/-- Sum of the amounts of the REVERSAL entries whose original entry has
type `ty` and user `u`. -/
def reversalsOf (entries : List LedgerEntry) (ty : EntryType) (u : String) : Int :=
  ((entries.filter (reversalOfType entries ty u)).map (fun e => e.amount_cents)).sum

theorem sum_filter_eq_sum_ite (l : List LedgerEntry) (p : LedgerEntry → Bool) :
    ((l.filter p).map (fun e => e.amount_cents)).sum
      = (l.map (fun e => if p e then e.amount_cents else 0)).sum := by
  induction l with
  | nil => simp
  | cons x xs ih =>
    by_cases hp : p x <;> simp [List.filter_cons, hp, ih]

theorem sum_map_add_sub (l : List LedgerEntry) (f g h k : LedgerEntry → Int) :
    (l.map (fun e => f e + g e - h e - k e)).sum
      = (l.map f).sum + (l.map g).sum - (l.map h).sum - (l.map k).sum := by
  induction l with
  | nil => simp
  | cons x xs ih => simp [ih]; ring

theorem entryDelta_decomposition (entries : List LedgerEntry) (u : String)
    (e : LedgerEntry) :
    entryDelta entries u e =
      (if e.entry_type == EntryType.CREDIT && e.user_id == u then e.amount_cents else 0)
      + (if reversalOfType entries EntryType.DEBIT u e then e.amount_cents else 0)
      - (if e.entry_type == EntryType.DEBIT && e.user_id == u then e.amount_cents else 0)
      - (if reversalOfType entries EntryType.CREDIT u e then e.amount_cents else 0) := by
  cases hty : e.entry_type with
  | CREDIT =>
    simp only [entryDelta, hty, reversalOfType]
    by_cases hu : e.user_id = u <;> simp [hu]
  | DEBIT =>
    simp only [entryDelta, hty, reversalOfType]
    by_cases hu : e.user_id = u <;> simp [hu]
  | REVERSAL =>
    simp only [entryDelta, hty, reversalOfType, originalOf]
    cases hrel : e.related_entry_id with
    | none => simp
    | some oid =>
      cases hfind : entries.find? (fun x => x.id == oid) with
      | none => simp [hfind]
      | some orig =>
        cases hoty : orig.entry_type with
        | CREDIT => by_cases hu : orig.user_id = u <;> simp [hfind, hoty, hu]
        | DEBIT => by_cases hu : orig.user_id = u <;> simp [hfind, hoty, hu]
        | REVERSAL => by_cases hu : orig.user_id = u <;> simp [hfind, hoty, hu]

theorem specBalance_decomposition (entries : List LedgerEntry) (u : String) :
    specBalance entries u =
      creditsTo entries u + reversalsOf entries EntryType.DEBIT u
        - debitsFrom entries u - reversalsOf entries EntryType.CREDIT u := by
  unfold specBalance creditsTo debitsFrom reversalsOf
  rw [sum_filter_eq_sum_ite, sum_filter_eq_sum_ite, sum_filter_eq_sum_ite,
    sum_filter_eq_sum_ite, ← sum_map_add_sub]
  exact congrArg List.sum
    (List.map_congr_left (fun e _ => entryDelta_decomposition entries u e))

/-- C1: after any finite sequence of ledger mutations starting from the
empty database, every user's stored `balance_cents` equals the sum of
CREDIT amounts to the user, plus the amounts of REVERSALs of the user's
DEBITs, minus the user's DEBIT amounts, minus the amounts of REVERSALs of
the user's CREDITs.  Failed operations roll back and leave the state
unchanged, so runs of successful operations reach exactly these states. -/
theorem balance_invariant (ops : List Op) (u : String) :
    (lookupBalance (runOps ops).balances u).balance_cents
      = creditsTo (runOps ops).entries u
        + reversalsOf (runOps ops).entries EntryType.DEBIT u
        - debitsFrom (runOps ops).entries u
        - reversalsOf (runOps ops).entries EntryType.CREDIT u := by
  rw [← specBalance_decomposition]
  exact (ledgerInv_runOps ops).2 u

theorem check_idempotency_ok_some (s : LedgerState) (k : String) (d : RequestData)
    (e : LedgerEntry) (h : check_idempotency s k d = .ok (some e)) :
    findByKey s.entries k = some e ∧ compute_request_hash d = e.request_hash := by
  unfold check_idempotency at h
  cases hf : findByKey s.entries k with
  | none =>
    rw [hf] at h
    cases h
  | some ex =>
    rw [hf] at h
    dsimp only at h
    by_cases hcond : compute_request_hash d = ex.request_hash
    · rw [if_pos hcond] at h
      simp only [Except.ok.injEq, Option.some.injEq] at h
      subst h
      exact ⟨rfl, hcond⟩
    · rw [if_neg hcond] at h
      cases h

theorem check_idempotency_ok_none (s : LedgerState) (k : String) (d : RequestData)
    (h : check_idempotency s k d = .ok none) : findByKey s.entries k = none := by
  unfold check_idempotency at h
  cases hf : findByKey s.entries k with
  | none => rfl
  | some ex =>
    rw [hf] at h
    dsimp only at h
    split at h
    · cases h
    · cases h

theorem check_idempotency_of_find (s : LedgerState) (k : String) (d : RequestData)
    (e : LedgerEntry) (hf : findByKey s.entries k = some e)
    (hh : compute_request_hash d = e.request_hash) :
    check_idempotency s k d = .ok (some e) := by
  unfold check_idempotency
  rw [hf]
  dsimp only
  rw [if_pos hh]

theorem findByKey_append_self (entries : List LedgerEntry) (le : LedgerEntry) (k : String)
    (h : findByKey entries k = none) (hk : le.idempotency_key = k) :
    findByKey (entries ++ [le]) k = some le := by
  unfold findByKey at h ⊢
  rw [List.find?_append, h]
  simp [List.find?_cons, hk]

/-- C2: replaying a credit with the same request and the same idempotency
key after a successful call returns the same entry with
`is_duplicate = true` and leaves the ledger entries and every balance
unchanged (the returned state is the input state itself). -/
theorem credit_replay (s : LedgerState) (r : LedgerCreditRequest) (k : String)
    (e : LedgerEntry) (b : Bool) (s' : LedgerState)
    (h : credit s r k = .ok (e, b, s')) :
    credit s' r k = .ok (e, true, s') := by
  simp only [credit] at h ⊢
  cases hchk : check_idempotency s k (RequestData.creditData r) with
  | error err =>
    rw [hchk] at h
    cases h
  | ok oe =>
    rw [hchk] at h
    cases oe with
    | some ex =>
      simp only [Except.ok.injEq, Prod.mk.injEq] at h
      obtain ⟨he, hb, hs⟩ := h
      subst he
      subst hs
      obtain ⟨hf, hh⟩ := check_idempotency_ok_some s k _ ex hchk
      rw [check_idempotency_of_find s k _ ex hf hh]
    | none =>
      simp only [Except.ok.injEq, Prod.mk.injEq] at h
      obtain ⟨rfl, rfl, rfl⟩ := h
      have hfresh : findByKey s.entries k = none := check_idempotency_ok_none s k _ hchk
      rw [check_idempotency_of_find _ k (RequestData.creditData r) _
        (findByKey_append_self s.entries _ k hfresh rfl) rfl]

/-- Concrete data for witnesses: a fresh credit on the empty ledger. -/
def wCreditReq : LedgerCreditRequest := { user_id := "u1", amount_cents := 10000 }

/-- The entry that `credit initialState wCreditReq "K1"` commits. -/
def wCreditEntry : LedgerEntry :=
  { id := 0, user_id := "u1", entry_type := .CREDIT, amount_cents := 10000,
    reward_id := none, reward_status := some .PENDING, idempotency_key := "K1",
    related_entry_id := none, request_hash := .creditData wCreditReq }

/-- The state after that first credit. -/
def wState1 : LedgerState :=
  { entries := [wCreditEntry],
    balances := [("u1", { balance_cents := 10000, version := 2 })],
    next_id := 1 }

theorem credit_replay_witness :
    credit wState1 wCreditReq "K1" = .ok (wCreditEntry, true, wState1) :=
  credit_replay initialState wCreditReq "K1" wCreditEntry false wState1 (by rfl)

theorem check_idempotency_conflict (s : LedgerState) (k : String) (d : RequestData)
    (e : LedgerEntry) (hf : findByKey s.entries k = some e)
    (hne : compute_request_hash d ≠ e.request_hash) :
    check_idempotency s k d = .error .idempotencyConflict := by
  unfold check_idempotency
  rw [hf]
  dsimp only
  rw [if_neg hne]

/-- C3: when an idempotency key is already bound to a stored entry and an
incoming credit, debit or reversal request hashes differently from the
stored `request_hash`, the operation fails with the 409 idempotency
conflict; no successful state is produced, so the ledger and all balances
are untouched. -/
theorem key_misuse_conflict (s : LedgerState) (k : String) (e : LedgerEntry)
    (rc : LedgerCreditRequest) (rd : LedgerDebitRequest) (rv : LedgerReversalRequest)
    (hf : findByKey s.entries k = some e)
    (hcne : compute_request_hash (.creditData rc) ≠ e.request_hash)
    (hdne : compute_request_hash (.debitData rd) ≠ e.request_hash)
    (hvne : compute_request_hash (.reversalData rv) ≠ e.request_hash) :
    credit s rc k = .error .idempotencyConflict ∧
    debit s rd k = .error .idempotencyConflict ∧
    reverse s rv k = .error .idempotencyConflict := by
  refine ⟨?_, ?_, ?_⟩
  · simp only [credit]
    rw [check_idempotency_conflict s k _ e hf hcne]
  · simp only [debit]
    rw [check_idempotency_conflict s k _ e hf hdne]
  · simp only [reverse]
    rw [check_idempotency_conflict s k _ e hf hvne]

theorem key_misuse_conflict_witness :
    credit wState1 { user_id := "u1", amount_cents := 20000 } "K1"
        = .error .idempotencyConflict ∧
    debit wState1 { user_id := "u1", amount_cents := 20000 } "K1"
        = .error .idempotencyConflict ∧
    reverse wState1 { entry_id := 0, reason := "oops" } "K1"
        = .error .idempotencyConflict :=
  key_misuse_conflict wState1 "K1" wCreditEntry
    { user_id := "u1", amount_cents := 20000 }
    { user_id := "u1", amount_cents := 20000 }
    { entry_id := 0, reason := "oops" }
    (by decide) (by decide) (by decide) (by decide)

/-- C4: a debit under a fresh idempotency key fails with the
insufficient-funds error when the user's balance is below the requested
amount (rolling back, hence no state change), and otherwise appends a
DEBIT entry and decreases the stored balance by exactly `amount_cents`. -/
theorem debit_fresh_spec (s : LedgerState) (r : LedgerDebitRequest) (k : String)
    (hfresh : findByKey s.entries k = none) :
    ((lookupBalance s.balances r.user_id).balance_cents < r.amount_cents →
      debit s r k = .error .insufficientFunds) ∧
    (¬ (lookupBalance s.balances r.user_id).balance_cents < r.amount_cents →
      ∃ e : LedgerEntry,
        e.entry_type = .DEBIT ∧ e.amount_cents = r.amount_cents ∧
        e.user_id = r.user_id ∧
        debit s r k = .ok (e, false,
          { entries := s.entries ++ [e]
            balances := setBalance s.balances r.user_id
              { balance_cents := (lookupBalance s.balances r.user_id).balance_cents
                  - r.amount_cents
                version := (lookupBalance s.balances r.user_id).version + 1 }
            next_id := s.next_id + 1 }) ∧
        (lookupBalance (setBalance s.balances r.user_id
            { balance_cents := (lookupBalance s.balances r.user_id).balance_cents
                - r.amount_cents
              version := (lookupBalance s.balances r.user_id).version + 1 })
          r.user_id).balance_cents
          = (lookupBalance s.balances r.user_id).balance_cents - r.amount_cents) := by
  have hchk : check_idempotency s k (.debitData r) = .ok none := by
    unfold check_idempotency
    rw [hfresh]
  constructor
  · intro hlt
    simp only [debit]
    rw [hchk]
    dsimp only
    rw [if_pos hlt]
  · intro hge
    refine ⟨{ id := s.next_id, user_id := r.user_id, entry_type := .DEBIT,
              amount_cents := r.amount_cents, reward_id := none, reward_status := none,
              idempotency_key := k, related_entry_id := none,
              request_hash := compute_request_hash (.debitData r) },
            rfl, rfl, rfl, ?_, ?_⟩
    · simp only [debit]
      rw [hchk]
      dsimp only
      rw [if_neg hge]
    · rw [lookupBalance_setBalance_self]

theorem debit_fresh_spec_witness :
    debit initialState { user_id := "u9", amount_cents := 5000 } "KD"
      = .error .insufficientFunds :=
  (debit_fresh_spec initialState { user_id := "u9", amount_cents := 5000 } "KD"
    (by decide)).1 (by decide)

/-- C10: evaluating an event against an explicit `rule_id` that is
inactive or absent succeeds with `rules_evaluated = 0`,
`rules_triggered = 0`, an empty results list and no state change; the
evaluate path raises no not-found error. -/
theorem evaluate_event_unknown_rule (db : List ReferralRule) (s : LedgerState)
    (event : JValue) (rid : String) (now : String)
    (h : ∀ rule ∈ db, ¬(rule.is_active = 1 ∧ rule.id = rid)) :
    evaluate_event db s event (some rid) now =
      (.ok { event_data := event, rules_evaluated := 0, rules_triggered := 0,
             results := [] }, s) := by
  unfold evaluate_event
  dsimp only
  have hfil : db.filter (fun r => r.is_active == (1 : Int) && r.id == rid) = [] := by
    rw [List.filter_eq_nil_iff]
    intro rule hmem hcontra
    simp only [Bool.and_eq_true, beq_iff_eq] at hcontra
    exact h rule hmem hcontra
  rw [hfil]
  rfl

/-- An inactive rule for the C10 witness. -/
def wInactiveRule : ReferralRule :=
  { id := "r9", name := "Dormant",
    rule_json := { conditions := [], actions := [] }, is_active := 0 }

theorem evaluate_event_unknown_rule_witness :
    evaluate_event [wInactiveRule] initialState (.obj []) (some "r9") "t0" =
        (.ok { event_data := .obj [], rules_evaluated := 0, rules_triggered := 0,
               results := [] }, initialState) ∧
    evaluate_event [wInactiveRule] initialState (.obj []) (some "missing") "t0" =
        (.ok { event_data := .obj [], rules_evaluated := 0, rules_triggered := 0,
               results := [] }, initialState) :=
  ⟨evaluate_event_unknown_rule [wInactiveRule] initialState (.obj []) "r9" "t0"
      (by decide),
   evaluate_event_unknown_rule [wInactiveRule] initialState (.obj []) "missing" "t0"
      (by decide)⟩

/-- The REVERSAL entries whose `related_entry_id` is `oid` (the existence
query `reverse` runs before inserting). -/
def reversalsReferencing (entries : List LedgerEntry) (oid : Nat) : List LedgerEntry :=
  entries.filter (fun e =>
    e.entry_type == EntryType.REVERSAL && e.related_entry_id == some oid)

theorem credit_ok_entries (s : LedgerState) (r : LedgerCreditRequest) (k : String)
    (e : LedgerEntry) (b : Bool) (s' : LedgerState)
    (h : credit s r k = .ok (e, b, s')) :
    s' = s ∨ (s'.entries = s.entries ++ [e] ∧ e.entry_type = .CREDIT) := by
  simp only [credit] at h
  cases hchk : check_idempotency s k (RequestData.creditData r) with
  | error err =>
    rw [hchk] at h
    cases h
  | ok oe =>
    rw [hchk] at h
    cases oe with
    | some ex =>
      simp only [Except.ok.injEq, Prod.mk.injEq] at h
      exact Or.inl h.2.2.symm
    | none =>
      simp only [Except.ok.injEq, Prod.mk.injEq] at h
      obtain ⟨rfl, rfl, rfl⟩ := h
      exact Or.inr ⟨rfl, rfl⟩

theorem debit_ok_entries (s : LedgerState) (r : LedgerDebitRequest) (k : String)
    (e : LedgerEntry) (b : Bool) (s' : LedgerState)
    (h : debit s r k = .ok (e, b, s')) :
    s' = s ∨ (s'.entries = s.entries ++ [e] ∧ e.entry_type = .DEBIT) := by
  simp only [debit] at h
  cases hchk : check_idempotency s k (RequestData.debitData r) with
  | error err =>
    rw [hchk] at h
    cases h
  | ok oe =>
    rw [hchk] at h
    cases oe with
    | some ex =>
      simp only [Except.ok.injEq, Prod.mk.injEq] at h
      exact Or.inl h.2.2.symm
    | none =>
      dsimp only at h
      split at h
      · cases h
      · simp only [Except.ok.injEq, Prod.mk.injEq] at h
        obtain ⟨rfl, rfl, rfl⟩ := h
        exact Or.inr ⟨rfl, rfl⟩

theorem reverse_ok_entries (s : LedgerState) (rq : LedgerReversalRequest) (k : String)
    (e : LedgerEntry) (b : Bool) (s' : LedgerState)
    (h : reverse s rq k = .ok (e, b, s')) :
    s' = s ∨
    (s'.entries = s.entries ++ [e] ∧ e.entry_type = .REVERSAL ∧
     e.related_entry_id = some rq.entry_id ∧
     s.entries.find? (fun x => x.entry_type == EntryType.REVERSAL &&
       x.related_entry_id == some rq.entry_id) = none) := by
  simp only [reverse] at h
  cases hchk : check_idempotency s k (RequestData.reversalData rq) with
  | error err =>
    rw [hchk] at h
    cases h
  | ok oe =>
    rw [hchk] at h
    cases oe with
    | some ex =>
      simp only [Except.ok.injEq, Prod.mk.injEq] at h
      exact Or.inl h.2.2.symm
    | none =>
      cases horig : s.entries.find? (fun x => x.id == rq.entry_id) with
      | none =>
        rw [horig] at h
        dsimp only at h
        cases h
      | some orig =>
        rw [horig] at h
        dsimp only at h
        cases hrv : s.entries.find? (fun x =>
            x.entry_type == EntryType.REVERSAL &&
            x.related_entry_id == some rq.entry_id) with
        | some prev =>
          rw [hrv] at h
          cases h
        | none =>
          rw [hrv] at h
          have horigid : orig.id = rq.entry_id := by
            have := List.find?_some horig
            simpa using this
          cases hty : orig.entry_type with
          | CREDIT =>
            rw [hty] at h
            dsimp only at h
            split at h
            · cases h
            · simp only [Except.ok.injEq, Prod.mk.injEq] at h
              obtain ⟨rfl, rfl, rfl⟩ := h
              exact Or.inr ⟨rfl, rfl, by simp [horigid], rfl⟩
          | DEBIT =>
            rw [hty] at h
            dsimp only at h
            simp only [Except.ok.injEq, Prod.mk.injEq] at h
            obtain ⟨rfl, rfl, rfl⟩ := h
            exact Or.inr ⟨rfl, rfl, by simp [horigid], rfl⟩
          | REVERSAL =>
            rw [hty] at h
            dsimp only at h
            simp only [Except.ok.injEq, Prod.mk.injEq] at h
            obtain ⟨rfl, rfl, rfl⟩ := h
            exact Or.inr ⟨rfl, rfl, by simp [horigid], rfl⟩

/-- At most one REVERSAL references any given entry id. -/
def AtMostOneReversal (entries : List LedgerEntry) : Prop :=
  ∀ oid, (reversalsReferencing entries oid).length ≤ 1

theorem atMostOne_append_nonreversal (entries : List LedgerEntry) (e : LedgerEntry)
    (h : AtMostOneReversal entries) (hty : e.entry_type ≠ .REVERSAL) :
    AtMostOneReversal (entries ++ [e]) := by
  intro oid
  unfold reversalsReferencing
  rw [List.filter_append]
  have : [e].filter (fun x =>
      x.entry_type == EntryType.REVERSAL && x.related_entry_id == some oid) = [] := by
    simp [List.filter_cons, hty]
  rw [this, List.append_nil]
  exact h oid

theorem atMostOne_applyOp (s : LedgerState) (op : Op)
    (h : AtMostOneReversal s.entries) : AtMostOneReversal (applyOp s op).entries := by
  cases op with
  | creditOp r k =>
    dsimp only [applyOp]
    cases hc : credit s r k with
    | error _ => exact h
    | ok x =>
      obtain ⟨e, b, s'⟩ := x
      rcases credit_ok_entries s r k e b s' hc with rfl | ⟨hent, hty⟩
      · exact h
      · rw [hent]
        exact atMostOne_append_nonreversal s.entries e h (by simp [hty])
  | debitOp r k =>
    dsimp only [applyOp]
    cases hc : debit s r k with
    | error _ => exact h
    | ok x =>
      obtain ⟨e, b, s'⟩ := x
      rcases debit_ok_entries s r k e b s' hc with rfl | ⟨hent, hty⟩
      · exact h
      · rw [hent]
        exact atMostOne_append_nonreversal s.entries e h (by simp [hty])
  | reverseOp rq k =>
    dsimp only [applyOp]
    cases hc : reverse s rq k with
    | error _ => exact h
    | ok x =>
      obtain ⟨e, b, s'⟩ := x
      rcases reverse_ok_entries s rq k e b s' hc with rfl | ⟨hent, hty, hrel, hnone⟩
      · exact h
      · rw [hent]
        intro oid
        unfold reversalsReferencing
        rw [List.filter_append]
        by_cases hoid : oid = rq.entry_id
        · subst hoid
          have h1 : s.entries.filter (fun x =>
              x.entry_type == EntryType.REVERSAL && x.related_entry_id == some rq.entry_id)
              = [] := by
            rw [List.filter_eq_nil_iff]
            intro a ha
            have := List.find?_eq_none.mp hnone a ha
            simpa using this
          rw [h1]
          simpa using List.length_filter_le _ [e]
        · have h2 : [e].filter (fun x =>
              x.entry_type == EntryType.REVERSAL && x.related_entry_id == some oid)
              = [] := by
            simp [List.filter_cons, hty, hrel, Ne.symm hoid]
          rw [h2, List.append_nil]
          exact h oid

theorem atMostOne_runOps (ops : List Op) : AtMostOneReversal (runOps ops).entries := by
  have hstep : ∀ (l : List Op) (s : LedgerState), AtMostOneReversal s.entries →
      AtMostOneReversal (l.foldl applyOp s).entries := by
    intro l
    induction l with
    | nil => intro s hs; exact hs
    | cons op rest ih => intro s hs; exact ih _ (atMostOne_applyOp s op hs)
  refine hstep ops initialState ?_
  intro oid
  simp [initialState, reversalsReferencing]

/-- A credit on the empty ledger, for the reversal scenario. -/
def cxCreditReq : LedgerCreditRequest := { user_id := "u2", amount_cents := 100 }

/-- State after crediting `u2` (entry id 0). -/
def cxS1 : LedgerState :=
  match credit initialState cxCreditReq "C1" with
  | .ok (_, _, s) => s
  | .error _ => initialState

/-- State after reversing entry 0 (REVERSAL entry id 1). -/
def cxS2 : LedgerState :=
  match reverse cxS1 { entry_id := 0, reason := "refund" } "R1" with
  | .ok (_, _, s) => s
  | .error _ => cxS1

/-- Counterexample to C6: entry 1 of `cxS2` is itself a REVERSAL and no
REVERSAL references it, yet `reverse` on it succeeds with a fresh key,
committing a REVERSAL whose original is a REVERSAL (and touching no
balance), instead of rejecting with a conflict-class error. -/
theorem reverse_of_reversal_accepted :
    cxS2.entries.map (fun e => e.entry_type)
      = [EntryType.CREDIT, EntryType.REVERSAL] ∧
    (match reverse cxS2 { entry_id := 1, reason := "undo" } "R2" with
     | .ok (e, d, s3) =>
       e.entry_type == EntryType.REVERSAL && e.related_entry_id == some 1 &&
       !d && (lookupBalance s3.balances "u2").balance_cents == 0 &&
       s3.entries.length == 3
     | .error _ => false) = true := by decide

theorem reverse_rejects_second (s : LedgerState) (rq : LedgerReversalRequest)
    (k : String) (orig prev : LedgerEntry)
    (hfresh : findByKey s.entries k = none)
    (horig : s.entries.find? (fun x => x.id == rq.entry_id) = some orig)
    (hprev : s.entries.find? (fun x => x.entry_type == EntryType.REVERSAL &&
        x.related_entry_id == some rq.entry_id) = some prev) :
    reverse s rq k = .error .alreadyReversed := by
  have hchk : check_idempotency s k (.reversalData rq) = .ok none := by
    unfold check_idempotency
    rw [hfresh]
  simp only [reverse]
  rw [hchk]
  dsimp only
  rw [horig]
  dsimp only
  rw [hprev]

/-- C6 as amended: with a fresh idempotency key, `reverse` rejects with the
409 AlreadyReversed error whenever a REVERSAL already references the
(existing) target, and consequently at most one REVERSAL ever references
any entry; however, contrary to the original claim, a target that is
itself a REVERSAL is not rejected (see `reverse_of_reversal_accepted`):
reversing a REVERSAL succeeds and applies no balance offset. -/
theorem reversal_uniqueness_amended (s : LedgerState) (rq : LedgerReversalRequest)
    (k : String) (orig prev : LedgerEntry) (ops : List Op)
    (hfresh : findByKey s.entries k = none)
    (horig : s.entries.find? (fun x => x.id == rq.entry_id) = some orig)
    (hprev : s.entries.find? (fun x => x.entry_type == EntryType.REVERSAL &&
        x.related_entry_id == some rq.entry_id) = some prev) :
    reverse s rq k = .error .alreadyReversed ∧
    (∀ oid, (reversalsReferencing (runOps ops).entries oid).length ≤ 1) :=
  ⟨reverse_rejects_second s rq k orig prev hfresh horig hprev, atMostOne_runOps ops⟩

theorem reversal_uniqueness_amended_witness :
    reverse cxS2 { entry_id := 0, reason := "again" } "R9"
        = .error .alreadyReversed ∧
    (reversalsReferencing (runOps []).entries 0).length ≤ 1 := by
  have h := reversal_uniqueness_amended cxS2 { entry_id := 0, reason := "again" } "R9"
    (cxS2.entries.get ⟨0, by decide⟩) (cxS2.entries.get ⟨1, by decide⟩) []
    (by decide) (by decide) (by decide)
  exact ⟨h.1, h.2 0⟩

/-- The rule-engine replay scenario: one active rule with no conditions
and a single credit action. -/
def replayAction : RuleAction :=
  { type := "credit", amount_cents := 100, reward_id := "rw" }

/-- The stored rule for the replay scenario. -/
def replayRule : ReferralRule :=
  { id := "r1", name := "Referral reward",
    rule_json := { conditions := [], actions := [replayAction] }, is_active := 1 }

/-- The event payload, with a top-level `event_id` and `user_id`. -/
def replayEvent : JValue := .obj [("event_id", .str "e1"), ("user_id", .str "u1")]

/-- First evaluation run, at wall-clock time t1. -/
def replayRun1 : Except String EvalResult × LedgerState :=
  evaluate_event [replayRule] initialState replayEvent none "2024-01-01T00:00:00"

/-- The committed state after the first run. -/
def replayState1 : LedgerState := replayRun1.2

/-- Second evaluation run of the identical event, at the later wall-clock
time t2. -/
def replayRun2 : Except String EvalResult × LedgerState :=
  evaluate_event [replayRule] replayState1 replayEvent none "2024-01-01T00:00:05"

/-- C5, evaluated at the failing input: the first run credits once under
the derived key UUIDv5 of "rw:u1:e1" exactly as the claim states, but the
second run of the identical event at a later timestamp does NOT return a
duplicate: because `_execute_action` embeds the fresh timestamp in the
hashed `extra_data` of the credit request, the stored and recomputed
request hashes differ, and the ledger raises the 409 idempotency conflict,
which the engine reports as a per-action failure.  No double credit occurs
(the state is unchanged), but `is_duplicate = true` is never returned. -/
theorem rule_replay_conflict_bug :
    replayRun1.1 = .ok
      { event_data := replayEvent, rules_evaluated := 1, rules_triggered := 1,
        results := [{ rule_id := "r1", rule_name := "Referral reward",
                      conditions_met := true,
                      actions_executed := [.success 0 100 false] }] } ∧
    replayState1.entries.map (fun e => e.idempotency_key) = [uuid5_dns "rw:u1:e1"] ∧
    replayRun2 = (.ok
      { event_data := replayEvent, rules_evaluated := 1, rules_triggered := 1,
        results := [{ rule_id := "r1", rule_name := "Referral reward",
                      conditions_met := true,
                      actions_executed :=
                        [.failure (.ledgerError .idempotencyConflict)] }] },
      replayState1) := ⟨rfl, rfl, rfl⟩

/-- Counterexample to C7: a `>` condition whose dotted path is missing at
the terminal step resolves the operand to Python `None`, and the ordered
comparison `None > 5` raises a `TypeError` that nothing in the engine
catches — condition evaluation is not total and does not yield `false`
here. -/
theorem condition_eval_raises :
    evaluate_condition { field := "x", operator := ">", value := .num 5 } (.obj [])
      = .error "TypeError: unorderable operand types" := rfl

/-- C7 as amended: condition evaluation is only partially safe.  A missing
intermediate step (a non-dict met during the walk) yields `false` for any
operator, and `==` / `!=` as well as unknown operators never raise; but a
missing terminal step resolves to `None` rather than `false`, and ordered
comparisons on incompatible operand types raise a `TypeError` that
propagates out of the engine (see `condition_eval_raises`). -/
theorem condition_eval_amended (c : RuleCondition) (event : JValue) :
    (walkPath event (pySplitDot c.field) = none →
      evaluate_condition c event = .ok false) ∧
    ((c.operator = "==" ∨ c.operator = "!=") →
      ∃ b, evaluate_condition c event = .ok b) ∧
    (c.operator ∉ (["==", "!=", ">", "<", ">=", "<=", "in", "not_in", "contains"] :
        List String) →
      evaluate_condition c event = .ok false) := by
  refine ⟨?_, ?_, ?_⟩
  · intro h
    simp [evaluate_condition, h]
  · intro hop
    cases hwalk : walkPath event (pySplitDot c.field) with
    | none => exact ⟨false, by simp [evaluate_condition, hwalk]⟩
    | some v =>
      rcases hop with hop | hop
      · exact ⟨pyEq v c.value, by simp [evaluate_condition, hwalk, hop]⟩
      · refine ⟨!pyEq v c.value, ?_⟩
        have hne : c.operator ≠ "==" := by rw [hop]; decide
        simp [evaluate_condition, hwalk, hop, hne]
  · intro hnot
    simp only [List.mem_cons, List.not_mem_nil, or_false, not_or] at hnot
    obtain ⟨h1, h2, h3, h4, h5, h6, h7, h8, h9⟩ := hnot
    cases hwalk : walkPath event (pySplitDot c.field) with
    | none => simp [evaluate_condition, hwalk]
    | some v => simp [evaluate_condition, hwalk, h1, h2, h3, h4, h5, h6, h7, h8, h9]

theorem condition_eval_amended_witness :
    evaluate_condition { field := "a.b", operator := ">", value := .num 5 }
        (.obj [("a", .num 3)]) = .ok false ∧
    (∃ b, evaluate_condition { field := "x", operator := "==", value := .null }
        (.obj []) = .ok b) ∧
    evaluate_condition { field := "x", operator := "~~", value := .null }
        (.obj []) = .ok false :=
  ⟨(condition_eval_amended { field := "a.b", operator := ">", value := .num 5 }
      (.obj [("a", .num 3)])).1 rfl,
   (condition_eval_amended { field := "x", operator := "==", value := .null }
      (.obj [])).2.1 (Or.inl rfl),
   (condition_eval_amended { field := "x", operator := "~~", value := .null }
      (.obj [])).2.2 (by decide)⟩

/-- Counterexample to C8: the claim says the 10^9 + 1 boundary fails for
credit and debit alike, but `schemas.LedgerDebitRequest.validate_amount`
only re-checks positivity and has no upper bound, so a debit of
10^9 + 1 cents passes validation. -/
theorem debit_amount_upper_bound_missing : debit_amount_valid 1000000001 = true := by
  decide

/-- C8 as amended: for credit requests the boundaries are as claimed
(1 valid; 0 and negatives invalid; 10^9 valid; 10^9 + 1 invalid); for
debit requests only positivity is checked, so 1 and 10^9 are valid, 0 and
negatives are invalid, and — contrary to the claim — 10^9 + 1 is also
valid. -/
theorem amount_validation_amended :
    credit_amount_valid 1 = true ∧
    credit_amount_valid 0 = false ∧
    (∀ v : Int, v < 0 → credit_amount_valid v = false) ∧
    credit_amount_valid 1000000000 = true ∧
    credit_amount_valid 1000000001 = false ∧
    debit_amount_valid 1 = true ∧
    debit_amount_valid 0 = false ∧
    (∀ v : Int, v < 0 → debit_amount_valid v = false) ∧
    debit_amount_valid 1000000000 = true ∧
    debit_amount_valid 1000000001 = true := by
  refine ⟨by decide, by decide, ?_, by decide, by decide, by decide, by decide, ?_,
    by decide, by decide⟩
  · intro v hv
    have hnp : ¬(0 : Int) < v := by omega
    simp [credit_amount_valid, hnp]
  · intro v hv
    have hnp : ¬(0 : Int) < v := by omega
    simp [debit_amount_valid, hnp]

theorem amount_validation_amended_witness :
    credit_amount_valid (-5) = false ∧ debit_amount_valid (-5) = false :=
  ⟨amount_validation_amended.2.2.1 (-5) (by decide),
   amount_validation_amended.2.2.2.2.2.2.2.1 (-5) (by decide)⟩

/-- A rule body with an operator and an action type outside the documented
sets. -/
def badRuleJson : RuleJson :=
  { conditions := [{ field := "x", operator := "frobnicate", value := .null }],
    actions := [{ type := "teleport", amount_cents := 5, reward_id := "r" }] }

/-- Counterexample to C9: a rule whose condition operator and action type
are unknown passes creation-time validation (only shape and
`amount_cents > 0` are checked) and `create_rule` stores it — creation is
not rejected. -/
theorem unknown_operator_rule_stored :
    rule_json_valid badRuleJson = true ∧
    create_rule [] "id1" "bad" badRuleJson =
      [{ id := "id1", name := "bad", rule_json := badRuleJson, is_active := 1 }] := by
  constructor
  · decide
  · rfl

/-- C9 as amended: rule creation validates only the JSON shape and the
positivity of each action's `amount_cents`; unknown operators and action
types are accepted and stored, and are handled lazily at evaluation time —
an unknown operator makes its condition evaluate to `false`, and an
unknown action type produces a per-action failure result while leaving the
ledger state unchanged. -/
theorem rule_validation_amended (store : List ReferralRule) (id name : String)
    (rj : RuleJson) (c : RuleCondition) (event : JValue) (a : RuleAction)
    (s : LedgerState) (now : String) :
    ((∀ act ∈ rj.actions, 0 < act.amount_cents) → rule_json_valid rj = true ∧
      create_rule store id name rj
        = store ++ [{ id := id, name := name, rule_json := rj, is_active := 1 }]) ∧
    (c.operator ∉ (["==", "!=", ">", "<", ">=", "<=", "in", "not_in", "contains"] :
        List String) →
      evaluate_condition c event = .ok false) ∧
    (a.type ≠ "credit" → a.type ≠ "debit" →
      execute_action s a event now = (.failure (.unknownActionType a.type), s)) := by
  refine ⟨?_, ?_, ?_⟩
  · intro hpos
    refine ⟨?_, rfl⟩
    unfold rule_json_valid
    rw [List.all_eq_true]
    intro act hact
    unfold rule_action_valid
    simpa using hpos act hact
  · intro hnot
    simp only [List.mem_cons, List.not_mem_nil, or_false, not_or] at hnot
    obtain ⟨h1, h2, h3, h4, h5, h6, h7, h8, h9⟩ := hnot
    cases hwalk : walkPath event (pySplitDot c.field) with
    | none => simp [evaluate_condition, hwalk]
    | some v => simp [evaluate_condition, hwalk, h1, h2, h3, h4, h5, h6, h7, h8, h9]
  · intro hc hd
    unfold execute_action
    rw [if_neg hc, if_neg hd]

theorem rule_validation_amended_witness :
    (rule_json_valid badRuleJson = true ∧
      create_rule [] "id2" "bad2" badRuleJson
        = [{ id := "id2", name := "bad2", rule_json := badRuleJson, is_active := 1 }]) ∧
    evaluate_condition { field := "x", operator := "frobnicate", value := .null }
        (.obj []) = .ok false ∧
    execute_action initialState { type := "teleport", amount_cents := 5, reward_id := "r" }
        (.obj []) "t0"
      = (.failure (.unknownActionType "teleport"), initialState) :=
  ⟨(rule_validation_amended [] "id2" "bad2" badRuleJson
      { field := "x", operator := "frobnicate", value := .null } (.obj [])
      { type := "teleport", amount_cents := 5, reward_id := "r" }
      initialState "t0").1 (by decide),
   (rule_validation_amended [] "id2" "bad2" badRuleJson
      { field := "x", operator := "frobnicate", value := .null } (.obj [])
      { type := "teleport", amount_cents := 5, reward_id := "r" }
      initialState "t0").2.1 (by decide),
   (rule_validation_amended [] "id2" "bad2" badRuleJson
      { field := "x", operator := "frobnicate", value := .null } (.obj [])
      { type := "teleport", amount_cents := 5, reward_id := "r" }
      initialState "t0").2.2 (by decide) (by decide)⟩
